import Mathlib

/-!
# Verification of the `space-filling` distance-field engine

A shallow embedding, in Lean 4, of the core of the `space-filling`
repository: the discrete distance field (`Argmax2D` over `ZOrderStorage`),
the adaptive distance field (`ADF` over `Quadtree`), and the line-search /
gradient-ascent utilities.  Floating-point scalars (`f32`/`f64`) are
modelled as exact rationals; the float constants that the code manipulates
exactly (the `f32::MAX / 2` and `f64::MAX / 2` sentinels, the `f32`
`SQRT_2` constant) are embedded by their exact rational values.  Square
roots of non-squares are not rational, so the two places where the source
computes a Euclidean length (`V2::length` inside the rectangle SDF and
`V2::normalize` inside the interior-point line search) are modelled as
partial functions returning `Option`: they are defined exactly on
axis-aligned vectors (where the length is `|a|`) and undefined otherwise;
every concrete run analysed below stays in the defined fragment.
-/

namespace SpaceFilling

/-- A world-space point (`Point2D<_, WorldSpace>` with rational scalars). -/
structure Pt where
  x : ℚ
  y : ℚ
  deriving DecidableEq, Repr

/-- `DistPoint { distance, point }` from `solver/mod.rs`. -/
structure DP where
  distance : ℚ
  point : Pt
  deriving DecidableEq, Repr

/-- Exact value of `f32::MAX / 2.0`, the sentinel the DDF grid is filled
with (`f32::MAX = (2^24 - 1) * 2^104`). -/
def sentinel32 : ℚ := (2 ^ 24 - 1) * 2 ^ 103

/-- Exact value of `_Float::max_value() / 2` at `_Float = f64`, the
sentinel used by the ADF bucket SDF (`f64::MAX = (2^53 - 1) * 2^971`). -/
def sentinel64 : ℚ := (2 ^ 53 - 1) * 2 ^ 970

/-- `DistPoint::default()`: distance `f32::MAX / 2`, point the origin. -/
def dpDefault : DP := ⟨sentinel32, ⟨0, 0⟩⟩

/-- An axis-aligned rectangle, mirroring `euclid::Rect` (origin + size). -/
structure QRect where
  ox : ℚ
  oy : ℚ
  w : ℚ
  h : ℚ
  deriving DecidableEq, Repr

/-- The unit square `Rect::from_size(Size2D::splat(1))`. -/
def unitRect : QRect := ⟨0, 0, 1, 1⟩

/-- `euclid::Rect::contains`: half-open membership (top/left edges in,
bottom/right edges out). -/
def QRect.containsPt (r : QRect) (p : Pt) : Prop :=
  r.ox ≤ p.x ∧ p.x < r.ox + r.w ∧ r.oy ≤ p.y ∧ p.y < r.oy + r.h

instance (r : QRect) (p : Pt) : Decidable (r.containsPt p) := by
  unfold QRect.containsPt; infer_instance

/-- `euclid::Rect::intersects`: strict overlap on both axes. -/
def QRect.intersects (r s : QRect) : Prop :=
  r.ox < s.ox + s.w ∧ s.ox < r.ox + r.w ∧ r.oy < s.oy + s.h ∧ s.oy < r.oy + r.h

instance (r s : QRect) : Decidable (r.intersects s) := by
  unfold QRect.intersects; infer_instance

/-- `euclid::Rect::center`. -/
def QRect.centerPt (r : QRect) : Pt := ⟨r.ox + r.w / 2, r.oy + r.h / 2⟩

/-!
## Z-order tiled storage and the DDF (`solver/z_order_storage.rs`,
`solver/argmax2d.rs`)

The grid state: `resolution² ` `f32` samples laid out chunk-major
(`data[chunk_area * id + offset]`), plus the per-chunk argmax cache.
Both arrays are modelled as functions from flat indices; indices beyond
the allocated range are never touched by the modelled operations under
the constructor's invariants.
-/

/-- The `Argmax2D` state: `ZOrderStorage` data plus `chunk_argmax`. -/
structure DDF where
  resolution : ℕ
  chunk : ℕ
  data : ℕ → ℚ
  cache : ℕ → DP

/-- `offset_to_xy`: linear offset to `(offset % width, offset / width)`. -/
def offsetToXY (offset width : ℕ) : ℕ × ℕ := (offset % width, offset / width)

/-- `xy_to_offset`: `y * width + x`. -/
def xyToOffset (xy : ℕ × ℕ) (width : ℕ) : ℕ := xy.2 * width + xy.1

/-- Chunks per side, `resolution / chunk_size`. -/
def DDF.side (s : DDF) : ℕ := s.resolution / s.chunk

/-- `chunk_count`: `(resolution / chunk_size)^2`. -/
def DDF.chunkCount (s : DDF) : ℕ := s.side ^ 2

/-- Samples per chunk, `chunk_size^2`. -/
def DDF.chunkArea (s : DDF) : ℕ := s.chunk ^ 2

/-- `Chunk::top_left`: `offset_to_xy(id, resolution/chunk) * chunk`. -/
def DDF.chunkTopLeft (s : DDF) (id : ℕ) : ℕ × ℕ :=
  ((offsetToXY id s.side).1 * s.chunk, (offsetToXY id s.side).2 * s.chunk)

/-- `Chunk::offset_to_xy_normalized`: in-chunk offset to the world point
`(x / resolution, y / resolution)` of the global pixel — the *corner* of
the pixel's cell, with no half-pixel shift. -/
def offsetToXYNormalized (size globalSize : ℕ) (topLeft : ℕ × ℕ) (offset : ℕ) : Pt :=
  ⟨((offsetToXY offset size).1 + topLeft.1 : ℕ) / (globalSize : ℚ),
   ((offsetToXY offset size).2 + topLeft.2 : ℕ) / (globalSize : ℚ)⟩

/-- World point of in-chunk `offset` of chunk `id` of storage `s`. -/
def DDF.world (s : DDF) (id offset : ℕ) : Pt :=
  offsetToXYNormalized s.chunk s.resolution (s.chunkTopLeft id) offset

/-- Modelled from the spec (refinement comparison only): the world point
the specification claims for pixel `(x, y)`, namely
`((x + ½) / resolution, (y + ½) / resolution)` — the cell center. -/
def specPixelCenterWorld (resolution x y : ℕ) : Pt :=
  ⟨((x : ℚ) + 1 / 2) / (resolution : ℚ), ((y : ℚ) + 1 / 2) / (resolution : ℚ)⟩

/-- The fresh grid built by `Argmax2D::new` after a successful
divisibility check: every sample is the `f32::MAX / 2` sentinel and every
cache slot is `ArgmaxResult::default()`. -/
def freshDDF (resolution chunk : ℕ) : DDF :=
  ⟨resolution, chunk, fun _ => sentinel32, fun _ => dpDefault⟩

/-- `Argmax2D::new`.  The Rust code first evaluates
`resolution % chunk_size`; the `%` operator on `u64` panics when the
divisor is zero, which we model as `none`.  Otherwise the constructor
returns `Err` exactly on non-divisible pairs and the filled grid
otherwise. -/
def argmax2dNew (resolution chunk : ℕ) : Option (Except String DDF) :=
  if chunk = 0 then none
  else some (if resolution % chunk ≠ 0 then
    Except.error "distance map resolution is not divisible by the chunk resolution"
  else Except.ok (freshDDF resolution chunk))

/-- `Iterator::max` over `DistPoint`s compared by distance only
(`Ord` on `DistPoint` is total-order comparison of the distances): the
*last* of several equal maxima wins.  The Rust call unwraps a nonempty
iterator; the default argument is only reached on an empty chunk, which
the constructor's `chunk ≥ 1` invariant rules out. -/
def maxLastDP : List DP → DP → DP
  | [], dflt => dflt
  | p :: ps, _ => ps.foldl (fun a x => if a.distance ≤ x.distance then x else a) p

/-- The chunk span of `chunks_domain_par_iter`: the domain is clipped to
`[0,1]²` (`intersection_unchecked` = componentwise max/min), scaled by
`resolution`, divided by `chunk`, rounded outward (`floor`/`ceil`), and
cast to `u64` (saturating at zero). -/
def DDF.spanLo (s : DDF) (domain : QRect) : ℕ × ℕ :=
  ((⌊max domain.ox 0 * s.resolution / s.chunk⌋).toNat,
   (⌊max domain.oy 0 * s.resolution / s.chunk⌋).toNat)

/-- Outward-rounded upper chunk bound of the clipped, scaled domain. -/
def DDF.spanHi (s : DDF) (domain : QRect) : ℕ × ℕ :=
  ((⌈min (domain.ox + domain.w) 1 * s.resolution / s.chunk⌉).toNat,
   (⌈min (domain.oy + domain.h) 1 * s.resolution / s.chunk⌉).toNat)

/-- Whether chunk `id` lies in the parallel-iterated chunk span. -/
def DDF.inSpan (s : DDF) (domain : QRect) (id : ℕ) : Prop :=
  (s.spanLo domain).1 ≤ (offsetToXY id s.side).1 ∧
  (offsetToXY id s.side).1 < (s.spanHi domain).1 ∧
  (s.spanLo domain).2 ≤ (offsetToXY id s.side).2 ∧
  (offsetToXY id s.side).2 < (s.spanHi domain).2

instance (s : DDF) (domain : QRect) (id : ℕ) : Decidable (s.inSpan domain id) := by
  unfold DDF.inSpan; infer_instance

/-- `Argmax2D::insert_sdf_domain`: on every chunk of the span, each
sample becomes `min(old, f(world point))` and the chunk's cache slot is
rewritten with the chunk argmax of the updated samples. -/
def DDF.insertSdfDomain (s : DDF) (domain : QRect) (f : Pt → ℚ) : DDF :=
  { s with
    data := fun i =>
      if s.inSpan domain (i / s.chunkArea) then
        min (s.data i) (f (s.world (i / s.chunkArea) (i % s.chunkArea)))
      else s.data i,
    cache := fun id =>
      if s.inSpan domain id then
        maxLastDP ((List.range s.chunkArea).map fun o =>
          ⟨min (s.data (s.chunkArea * id + o)) (f (s.world id o)), s.world id o⟩) dpDefault
      else s.cache id }

/-- `Argmax2D::insert_sdf`: insertion over the whole unit square. -/
def DDF.insertSdf (s : DDF) (f : Pt → ℚ) : DDF :=
  s.insertSdfDomain unitRect f

/-- `Argmax2D::invert`: negate every sample and recompute every chunk's
argmax cache slot. -/
def DDF.invert (s : DDF) : DDF :=
  { s with
    data := fun i => if i / s.chunkArea < s.chunkCount then -s.data i else s.data i,
    cache := fun id =>
      if id < s.chunkCount then
        maxLastDP ((List.range s.chunkArea).map fun o =>
          ⟨-s.data (s.chunkArea * id + o), s.world id o⟩) dpDefault
      else s.cache id }

/-- The chunk argmax recomputed from the current samples of chunk `id`;
`per_tile_max[id]` holds this value after any insertion or inversion
that touched chunk `id`. -/
def DDF.chunkArgmax (s : DDF) (id : ℕ) : DP :=
  maxLastDP ((List.range s.chunkArea).map fun o =>
    ⟨s.data (s.chunkArea * id + o), s.world id o⟩) dpDefault

/-- `Argmax2D::find_max`: last-wins maximum of the cache array. -/
def DDF.findMax (s : DDF) : DP :=
  maxLastDP ((List.range s.chunkCount).map s.cache) dpDefault

/-!
## The placement iterator of the DDF (`ArgmaxIter`, `solver/argmax2d.rs`)

`Argmax2D::iter().build()` produces the infinite stream
`(0..).map(|_| (find_max(), &mut argmax)).take_while(|(d, _)| d.distance >= min_dist)`;
the driver mutates the field between pulls, so the stream of `find_max`
results is modelled as an arbitrary sequence `a : ℕ → DP`.  Element `i`
of a `take_while` stream is produced iff the predicate held at every
index up to and including `i`. -/
def iterYields (a : ℕ → DP) (minDist : ℚ) (i : ℕ) : Prop :=
  ∀ j, j ≤ i → minDist ≤ (a j).distance

/-- Exact value of the `f32` constant `std::f32::consts::SQRT_2`
(`0x3FB504F3`, i.e. `11863283 * 2⁻²³`). -/
def sqrt2F32 : ℚ := 11863283 / 2 ^ 23

/-- The default `min_dist` of `Argmax2D::iter`:
`0.5 * SQRT_2 / resolution`, one half-cell diagonal (the claim's
`√2 / (2·resolution)`, with `√2` the `f32` constant). -/
def minDistDefault (resolution : ℕ) : ℚ := 1 / 2 * sqrt2F32 / resolution

/-!
## Gradient ascent with batched random restarts (`util.rs`,
`solver/gradient_descent/mod.rs`)

`find_max_parallel` ascends a batch of random starts, keeps the ascended
points whose field value exceeds `Δ`, and deduplicates them with a
left-to-right fold.  The Euclidean `distance_to` and the optimizer are
kept abstract (`dist`, `opt`): the claims under verification are
invariant in them, and the exact Euclidean length is not rational. -/
def dedupStep (dist : Pt → Pt → ℚ) (acc : List DP) (pn : DP) : List DP :=
  if acc.all fun p => decide (pn.distance < dist p.point pn.point / 2) then acc ++ [pn] else acc

/-- The left-to-right dedup fold of §4.4: keep `p_new` iff for every
previously kept `p_k`, `distance(p_new, p_k) / 2 > φ(p_new)`. -/
def dedupFold (dist : Pt → Pt → ℚ) (cands : List DP) : List DP :=
  cands.foldl (dedupStep dist) []

/-- The `filter_map` stage of `find_max_parallel`: ascend each start
with `line_search.optimize` and keep `DistPoint { distance: f(p1), point: p1 }`
iff `f(p1) > Δ`. -/
def ascendedCandidates (f : Pt → ℚ) (opt : Pt → Pt) (delta : ℚ) (starts : List Pt) : List DP :=
  starts.filterMap fun p0 =>
    let p1 := opt p0
    if delta < f p1 then some ⟨f p1, p1⟩ else none

/-- `find_max_parallel` (`util.rs`): candidates, then the dedup fold. -/
def findMaxParallel (dist : Pt → Pt → ℚ) (f : Pt → ℚ) (opt : Pt → Pt) (delta : ℚ)
    (starts : List Pt) : List DP :=
  (starts.filterMap fun p0 =>
    let p1 := opt p0
    if delta < f p1 then some ⟨f p1, p1⟩ else none).foldl
    (fun acc pn =>
      if acc.all fun p => decide (pn.distance < dist p.point pn.point / 2)
      then acc ++ [pn] else acc) []

/-- `LineSearch::find_local_max` (`solver/gradient_descent/mod.rs`): the
first of up to `max_attempts` random starts whose ascended point has
field value above `Δ`. -/
def findLocalMax (f : Pt → ℚ) (opt : Pt → Pt) (delta : ℚ) (p0s : List Pt) : Option DP :=
  p0s.findSome? fun p0 =>
    let p1 := opt p0
    if delta < f p1 then some ⟨f p1, p1⟩ else none

/-- One batch of `GradientDescentIter::build`: `find_local_max` per seed,
then the same dedup fold. -/
def gdIterBatch (dist : Pt → Pt → ℚ) (f : Pt → ℚ) (opt : Pt → Pt) (delta : ℚ)
    (seeds : List (List Pt)) : List DP :=
  (seeds.filterMap (findLocalMax f opt delta)).foldl
    (fun acc pn =>
      if acc.all fun p => decide (pn.distance < dist p.point pn.point / 2)
      then acc ++ [pn] else acc) []

/-!
## Quadtree (`solver/adf/quadtree.rs`)

`Quadtree<Data, Float>` at `Data = Vec<Arc<dyn Fn(P2) -> Float>>`,
`Float = f64`: a square node with an optional boxed array of four
children. -/
inductive QT where
  | mk (rect : QRect) (children : Option (QT × QT × QT × QT))
      (depth maxDepth : ℕ) (data : List (Pt → ℚ))

/-- The node's rectangle. -/
def QT.rect : QT → QRect
  | .mk r _ _ _ _ => r

/-- The node's optional children. -/
def QT.children : QT → Option (QT × QT × QT × QT)
  | .mk _ c _ _ _ => c

/-- The node's depth. -/
def QT.depth : QT → ℕ
  | .mk _ _ d _ _ => d

/-- The node's maximum depth bound. -/
def QT.maxDepth : QT → ℕ
  | .mk _ _ _ m _ => m

/-- The node's bucket of SDF primitives. -/
def QT.data : QT → List (Pt → ℚ)
  | .mk _ _ _ _ l => l

/-- `quadrant_origin` scaled into `rect`, with the quadrant's rect
(`rect.size / 2`), in the order TL, TR, BL, BR. -/
def quadrantRect (r : QRect) : Fin 4 → QRect
  | 0 => ⟨r.ox, r.oy, r.w / 2, r.h / 2⟩
  | 1 => ⟨r.ox + r.w / 2, r.oy, r.w / 2, r.h / 2⟩
  | 2 => ⟨r.ox, r.oy + r.h / 2, r.w / 2, r.h / 2⟩
  | 3 => ⟨r.ox + r.w / 2, r.oy + r.h / 2, r.w / 2, r.h / 2⟩

/-- `Quadtrant::get`: the first quadrant (TL, TR, BL, BR order) whose
half-open sub-rectangle contains `pt`. -/
def quadrantGet (r : QRect) (p : Pt) : Option (Fin 4) :=
  if (quadrantRect r 0).containsPt p then some 0
  else if (quadrantRect r 1).containsPt p then some 1
  else if (quadrantRect r 2).containsPt p then some 2
  else if (quadrantRect r 3).containsPt p then some 3
  else none

/-- Select one of the four children. -/
def childAt (c : QT × QT × QT × QT) : Fin 4 → QT
  | 0 => c.1
  | 1 => c.2.1
  | 2 => c.2.2.1
  | 3 => c.2.2.2

/-- `Quadtree::new`: the unit-square root at depth 0. -/
def adfNew (maxDepth : ℕ) (init : List (Pt → ℚ)) : QT :=
  .mk unitRect none 0 maxDepth init

/-- `Quadtree::subdivide`: allocate the four children (data from
`f(child_rect)`) only when `depth < max_depth` and the node is a leaf;
otherwise leave the node untouched. -/
def QT.subdivide (t : QT) (finit : QRect → List (Pt → ℚ)) : QT :=
  match t with
  | .mk r c d md dat =>
    if d < md ∧ c.isNone then
      .mk r (some
        (.mk (quadrantRect r 0) none (d+1) md (finit (quadrantRect r 0)),
         .mk (quadrantRect r 1) none (d+1) md (finit (quadrantRect r 1)),
         .mk (quadrantRect r 2) none (d+1) md (finit (quadrantRect r 2)),
         .mk (quadrantRect r 3) none (d+1) md (finit (quadrantRect r 3)))) d md dat
    else .mk r c d md dat

/-- `Quadtree::pt_to_node`: descend through `Quadtrant::get`; `None` as
soon as a node with children has no quadrant containing `pt`; the
reached leaf otherwise. -/
def QT.ptToNode : QT → Pt → Option QT
  | .mk r none d md dat, _ => some (.mk r none d md dat)
  | .mk r (some (c0, c1, c2, c3)) _ _ _, p =>
    match quadrantGet r p with
    | none => none
    | some 0 => c0.ptToNode p
    | some 1 => c1.ptToNode p
    | some 2 => c2.ptToNode p
    | some 3 => c3.ptToNode p

/-!
## ADF (`solver/adf/mod.rs`)
-/

/-- `impl SDF for &[Arc<dyn Fn(P2) -> _Float>]`: map the bucket over the
point and reduce with `if a <= b { a } else { b }`; the empty bucket
yields `max_value / 2`. -/
def bucketSdf (l : List (Pt → ℚ)) (p : Pt) : ℚ :=
  match l with
  | [] => sentinel64
  | f :: fs => fs.foldl (fun a g => if a ≤ g p then a else g p) (f p)

/-- `impl SDF for ADF`: resolve the leaf via `pt_to_node`, falling back
to the root's own bucket when no quadrant contains the point. -/
def adfSdf (t : QT) (p : Pt) : ℚ :=
  match t.ptToNode p with
  | some n => bucketSdf n.data p
  | none => bucketSdf t.data p

/-- The partial-order oracle type of `sdf_partialord`: decides (up to
line-search precision) whether `f > g` everywhere on a rectangle. -/
abbrev Oracle := (Pt → ℚ) → (Pt → ℚ) → QRect → Bool

/-- The minimum of all bucket entries except index `i`, folded from the
`max_value / 2` sentinel — the `sdf_old` closure of the pruning pass in
`ADF::insert_sdf_domain`. -/
def othersMin (data : List (Pt → ℚ)) (i : ℕ) (p : Pt) : ℚ :=
  ((data.take i) ++ (data.drop (i+1))).foldl (fun a g => min a (g p)) sentinel64

/-- The pruning pass: keep bucket entry `f` iff the oracle could find a
point of the child rect where the other entries are higher than `f`
(i.e. iff `¬ po f (min of others) rect`). -/
def pruneBucket (po : Oracle) (data : List (Pt → ℚ)) (r : QRect) : List (Pt → ℚ) :=
  data.enum.filterMap fun fi =>
    if po fi.2 (othersMin data fi.1) r then none else some fi.2

/-- `BUCKET_SIZE` from `ADF::insert_sdf_domain`. -/
def bucketSize : ℕ := 3

/-- `ADF::insert_sdf_domain`, sequentialized: the managed traversal
visits a node, skips it when its rect misses the domain, recurses into
children, and on a leaf applies (in order) the two oracle tests, the
max-depth append, the free-slot append, or subdivision with pruned
buckets.  Returns the updated subtree and the `change_exists` flag. -/
def adfInsert (po : Oracle) (domain : QRect) (f : Pt → ℚ) : QT → QT × Bool
  | .mk r c d md dat =>
    if ¬ QRect.intersects r domain then (.mk r c d md dat, false)
    else match c with
    | some (c0, c1, c2, c3) =>
      let r0 := adfInsert po domain f c0
      let r1 := adfInsert po domain f c1
      let r2 := adfInsert po domain f c2
      let r3 := adfInsert po domain f c3
      (.mk r (some (r0.1, r1.1, r2.1, r3.1)) d md dat, r0.2 || r1.2 || r2.2 || r3.2)
    | none =>
      if po f (bucketSdf dat) r then (.mk r none d md dat, false)
      else if po (bucketSdf dat) f r then (.mk r none d md [f], true)
      else if d = md then (.mk r none d md (dat ++ [f]), true)
      else if dat.length < bucketSize then (.mk r none d md (dat ++ [f]), true)
      else (QT.subdivide (.mk r none d md dat) (pruneBucket po (dat ++ [f])), true)

/-!
## The interior-point partial-order oracle (`solver/adf/mod.rs`
`sdf_partialord`, `solver/line_search.rs` `optimize_normal`,
`geometry/shapes.rs` `Rect::sdf`)

The only irrational operations are the two Euclidean lengths
(`V2::length` in the rectangle SDF, `V2::normalize` in the gradient
walk).  They are modelled exactly on axis-aligned vectors and as `none`
otherwise; `none` propagates, so a defined result of the model is a
faithful (idealized-real) evaluation of the source. -/

/-- `V2::length` on an axis-aligned vector; `none` when both components
are nonzero (the length is then irrational in general). -/
def qlen (a b : ℚ) : Option ℚ :=
  if a = 0 then some |b| else if b = 0 then some |a| else none

/-- `V2::normalize` (`v / v.length()`): defined for axis-aligned nonzero
vectors; the zero vector (a NaN in the source) and mixed directions are
`none`. -/
def qnormalize (a b : ℚ) : Option Pt :=
  match qlen a b with
  | none => none
  | some l => if l = 0 then none else some ⟨a / l, b / l⟩

/-- `shapes::Rect::sdf`: `dist = |p| - size/2`;
`outside = length(max(dist, 0))`; `inside = min(max(dist.x, dist.y), 0)`;
result `outside + inside`. -/
def rectShapeSdf (size : Pt) (p : Pt) : Option ℚ :=
  let dx := |p.x| - size.x / 2
  let dy := |p.y| - size.y / 2
  (qlen (max dx 0) (max dy 0)).map fun outside => outside + min (max dx dy) 0

/-- The IPM boundary constraint of `sdf_partialord`:
`shapes::Rect { size: domain.size }.translate(domain.center()).sdf(v)`,
i.e. the rectangle SDF evaluated at `v - center`. -/
def boundaryConstraint (domain : QRect) (v : Pt) : Option ℚ :=
  rectShapeSdf ⟨domain.w, domain.h⟩ ⟨v.x - domain.centerPt.x, v.y - domain.centerPt.y⟩

/-- The objective handed to `optimize_normal` by `sdf_partialord`:
`g(v) - f(v)` inside the domain, `-boundary_constraint(v)` outside. -/
def ipmObjective (domain : QRect) (f g : Pt → ℚ) (v : Pt) : Option ℚ :=
  if domain.containsPt v then some (g v - f v)
  else (boundaryConstraint domain v).map Neg.neg

/-- `LineSearch { Δ, initial_step_size, decay_factor }` (the default has
no step limit; the loop terminates because the step decays
geometrically below `Δ`). -/
structure LSCfg where
  delta : ℚ
  initStep : ℚ
  decay : ℚ
  deriving Repr

/-- `LineSearch::default()`: `Δ = 1e-6`, initial step 1, decay 0.85
(float literals embedded as the decimals they denote). -/
def lsDefault : LSCfg := ⟨1 / 1000000, 1, 17 / 20⟩

/-- The loop body of `LineSearch::optimize_normal`: stop (`false`) when
the step fell below `Δ`; succeed (`true`) on a positive sample; else
walk one normalized-gradient step of the current size and decay the
step.  `fuel` bounds the modelled iterations; `none` = out of fuel or an
unrepresentable (non-axis-aligned) normalization. -/
def optimizeNormalGo (cfg : LSCfg) (h : Pt → Option ℚ) : ℕ → ℚ → Pt → Option Bool
  | 0, _, _ => none
  | fuel + 1, step, p =>
    if step < cfg.delta then some false
    else match h p with
    | none => none
    | some fp =>
      if 0 < fp then some true
      else match h ⟨p.x + cfg.delta, p.y⟩, h ⟨p.x, p.y + cfg.delta⟩ with
      | some hx, some hy =>
        match qnormalize (hx - fp) (hy - fp) with
        | none => none
        | some n =>
          optimizeNormalGo cfg h fuel (step * cfg.decay)
            ⟨p.x + n.x * step, p.y + n.y * step⟩
      | _, _ => none

/-- `LineSearch::optimize_normal` from the initial step size. -/
def optimizeNormal (cfg : LSCfg) (h : Pt → Option ℚ) (fuel : ℕ) (p : Pt) : Option Bool :=
  optimizeNormalGo cfg h fuel cfg.initStep p

/-- `sdf_partialord` at the ADF's default lattice density 1: test the
domain center with `optimize_normal` and negate — `true` means the walk
found no point of the domain where `g > f`. -/
def sdfPartialOrd1 (cfg : LSCfg) (fuel : ℕ) (f g : Pt → ℚ) (domain : QRect) : Option Bool :=
  (optimizeNormal cfg (ipmObjective domain f g) fuel domain.centerPt).map (! ·)

/-- Fuel ample for the default config: `0.85^k` falls below `1e-6`
within 86 steps. -/
def defaultFuel : ℕ := 200

/-- The concrete oracle used by `ADF` at its default settings
(`ipm_gd_lattice_density = 1`, `LineSearch::default()`).  `getD false`
totalizes the partial model; the analysed runs below are proved to stay
in the defined fragment, so the default is never consulted there. -/
def poDefault : Oracle := fun f g r => (sdfPartialOrd1 lsDefault defaultFuel f g r).getD false

/-!
## Soundness framework for the insertion oracle (claim C2)
-/

/-- Closed membership in a rectangle (boundary included); the region on
which an oracle verdict must hold for monotonicity, since `pt_to_node`
resolves interior points of a leaf's half-open rect and `ADF::sdf`
evaluates the root bucket on the unit square's far edges. -/
def QRect.closedContains (r : QRect) (p : Pt) : Prop :=
  r.ox ≤ p.x ∧ p.x ≤ r.ox + r.w ∧ r.oy ≤ p.y ∧ p.y ≤ r.oy + r.h

instance (r : QRect) (p : Pt) : Decidable (r.closedContains p) := by
  unfold QRect.closedContains; infer_instance

/-- A partial-order oracle is *sound* when every `true` verdict is
pointwise correct on the closed rectangle: `po f g r = true` really
means `f ≥ g` on `r`. -/
def OracleSound (po : Oracle) : Prop :=
  ∀ f g r, po f g r = true → ∀ v : Pt, r.closedContains v → g v ≤ f v

/-- Children occupy exactly the four quadrant rectangles of their
parent — the geometry `subdivide` establishes. -/
def QT.rectsCoherent : QT → Prop
  | .mk _ none _ _ _ => True
  | .mk r (some (c0, c1, c2, c3)) _ _ _ =>
      c0.rect = quadrantRect r 0 ∧ c1.rect = quadrantRect r 1 ∧
      c2.rect = quadrantRect r 2 ∧ c3.rect = quadrantRect r 3 ∧
      c0.rectsCoherent ∧ c1.rectsCoherent ∧ c2.rectsCoherent ∧ c3.rectsCoherent

/-- The depth invariant of §3: a node with children satisfies
`depth < max_depth`, recursively. -/
def QT.wellFormed : QT → Prop
  | .mk _ none _ _ _ => True
  | .mk _ (some (c0, c1, c2, c3)) d md _ =>
      d < md ∧ c0.wellFormed ∧ c1.wellFormed ∧ c2.wellFormed ∧ c3.wellFormed

/-- No leaf visited by this insertion takes the subdivide-and-prune
branch: every crossing leaf is either at `max_depth` or has a free
bucket slot. -/
def noSubdivide (po : Oracle) (domain : QRect) (f : Pt → ℚ) : QT → Prop
  | .mk r none d md dat =>
      QRect.intersects r domain → po f (bucketSdf dat) r = false →
      po (bucketSdf dat) f r = false → d = md ∨ dat.length < bucketSize
  | .mk _ (some (c0, c1, c2, c3)) _ _ _ =>
      noSubdivide po domain f c0 ∧ noSubdivide po domain f c1 ∧
      noSubdivide po domain f c2 ∧ noSubdivide po domain f c3

/-!
## The concrete run refuting unconditional ADF monotonicity (claim C2)

The ADF is built with `ADF::new(2, vec![g])` and configured through its
public `with_ipm_line_config` setter with the line search
`{ Δ: 1/4, initial_step_size: 1, decay_factor: 1/2, step_limit: None }`
(density stays at the default 1).  Inserting `f` over the unit square
makes the `g ≥ f` test walk from the center leftwards and terminate
without ever probing `x > 3/4`, so it misses the region `x > 15/16`
where `f > g`; the insertion then *replaces* the bucket by `[f]`,
raising the represented field at `(31/32, 1/2)` from `1/32` to `5/32`. -/
def lsCex : LSCfg := ⟨1/4, 1, 1/2⟩

/-- The oracle of the counterexample ADF (`sdf_partialord` at lattice
density 1 under `lsCex`); fuel 5 exceeds the walk's 4 iterations, and
the two verdicts the run consults are proved to be `some` values, so the
`getD` default is never used. -/
def poCex : Oracle := fun f g r => (sdfPartialOrd1 lsCex 5 f g r).getD false

/-- The seed primitive of the counterexample ADF. -/
def cexG : Pt → ℚ := fun p => 1 - p.x

/-- The inserted primitive: below `cexG` left of `x = 15/16`, above it
to the right (`f(31/32) = 5/32 > g(31/32) = 1/32`). -/
def cexF : Pt → ℚ := fun p => if p.x ≤ 3/4 then 1/2 - 2 * p.x else 3 * p.x - 11/4

/-- `ADF::new(2, vec![cexG])`. -/
def cexTree : QT := adfNew 2 [cexG]

/-- The probe point at which the field increases. -/
def cexV : Pt := ⟨31/32, 1/2⟩

/-!
## Pixel addressing of the z-order storage

`Argmax2D` reaches pixel `(x, y)` through chunk
`(y / chunk) * side + (x / chunk)` at in-chunk offset
`(y % chunk) * chunk + (x % chunk)`; the flat storage index is
`chunk_area * id + offset`. -/
def pixChunkId (resolution chunk x y : ℕ) : ℕ :=
  (y / chunk) * (resolution / chunk) + x / chunk

/-- In-chunk offset of global pixel `(x, y)`. -/
def pixOffset (chunk x y : ℕ) : ℕ := (y % chunk) * chunk + x % chunk

/-- Flat storage index of global pixel `(x, y)`. -/
def DDF.pixIndex (s : DDF) (x y : ℕ) : ℕ :=
  s.chunkArea * pixChunkId s.resolution s.chunk x y + pixOffset s.chunk x y

theorem offsetToXY_encode (w a b : ℕ) (hw : 0 < w) (hb : b < w) :
    offsetToXY (a * w + b) w = (b, a) := by
  unfold offsetToXY
  rw [Nat.add_comm, Nat.mul_comm]
  rw [Nat.add_mul_mod_self_left, Nat.add_mul_div_left _ _ hw]
  rw [Nat.mod_eq_of_lt hb, Nat.div_eq_of_lt hb, Nat.zero_add]

theorem pixOffset_lt (chunk x y : ℕ) (hc : 0 < chunk) :
    pixOffset chunk x y < chunk ^ 2 := by
  have h1 : y % chunk < chunk := Nat.mod_lt _ hc
  have h2 : x % chunk < chunk := Nat.mod_lt _ hc
  calc pixOffset chunk x y < (y % chunk) * chunk + chunk := by
        unfold pixOffset; omega
    _ = (y % chunk + 1) * chunk := by ring
    _ ≤ chunk * chunk := Nat.mul_le_mul_right _ (Nat.succ_le_of_lt h1)
    _ = chunk ^ 2 := (sq chunk).symm

theorem offsetToXY_pixOffset (chunk x y : ℕ) (hc : 0 < chunk) :
    offsetToXY (pixOffset chunk x y) chunk = (x % chunk, y % chunk) :=
  offsetToXY_encode chunk (y % chunk) (x % chunk) hc (Nat.mod_lt _ hc)

theorem offsetToXY_pixChunkId (resolution chunk x y : ℕ) (hc : 0 < chunk)
    (hd : chunk ∣ resolution) (hx : x < resolution) (hy : y < resolution) :
    offsetToXY (pixChunkId resolution chunk x y) (resolution / chunk)
      = (x / chunk, y / chunk) := by
  have hres : 0 < resolution := Nat.lt_of_le_of_lt (Nat.zero_le x) hx
  have hside : 0 < resolution / chunk := Nat.div_pos (Nat.le_of_dvd hres hd) hc
  exact offsetToXY_encode _ _ _ hside (Nat.div_lt_div_of_lt_of_dvd hd hx)

theorem world_eq_corner (s : DDF) (x y : ℕ) (hc : 0 < s.chunk)
    (hd : s.chunk ∣ s.resolution) (hx : x < s.resolution) (hy : y < s.resolution) :
    s.world (pixChunkId s.resolution s.chunk x y) (pixOffset s.chunk x y)
      = ⟨(x : ℚ) / (s.resolution : ℚ), (y : ℚ) / (s.resolution : ℚ)⟩ := by
  unfold DDF.world DDF.chunkTopLeft offsetToXYNormalized
  rw [DDF.side, offsetToXY_pixChunkId s.resolution s.chunk x y hc hd hx hy,
    offsetToXY_pixOffset s.chunk x y hc]
  have ex : x % s.chunk + x / s.chunk * s.chunk = x := Nat.mod_add_div' x s.chunk
  have ey : y % s.chunk + y / s.chunk * s.chunk = y := Nat.mod_add_div' y s.chunk
  simp only [ex, ey]

/-!
## Claim C3 — the world point sampled for a pixel

The specification claims pixel `(x, y)` is sampled at the cell *center*
`((x + ½)/resolution, (y + ½)/resolution)`.  The code
(`Chunk::offset_to_xy_normalized`) divides the integer pixel coordinates
by the resolution directly, yielding the cell's top-left *corner*. -/

/-- Claim C3, counterexample: for the 2×2 grid with unit chunks, pixel
`(0, 0)` is sampled at `(0, 0)`, not at the center `(¼, ¼)` the
specification claims. -/
theorem claim_C3_counterexample :
    (freshDDF 2 1).world (pixChunkId 2 1 0 0) (pixOffset 1 0 0)
      ≠ specPixelCenterWorld 2 0 0 := by
  have h : (freshDDF 2 1).world (pixChunkId 2 1 0 0) (pixOffset 1 0 0)
      = ⟨0 / (2 : ℚ), 0 / (2 : ℚ)⟩ :=
    world_eq_corner (freshDDF 2 1) 0 0 (by decide) (by decide) (by decide) (by decide)
  rw [h]
  intro heq
  have hx := congrArg Pt.x heq
  norm_num [specPixelCenterWorld] at hx

/-- Claim C3 (amended: the sample point is the cell's top-left corner
`(x/resolution, y/resolution)`, with no half-pixel shift): for every
in-range pixel `(x, y)` of a constructed grid, the world point at which
its stored sample is evaluated is `(x/resolution, y/resolution)`. -/
theorem claim_C3_sample_point_is_cell_corner (s : DDF) (x y : ℕ) (hc : 0 < s.chunk)
    (hd : s.chunk ∣ s.resolution) (hx : x < s.resolution) (hy : y < s.resolution) :
    s.world (pixChunkId s.resolution s.chunk x y) (pixOffset s.chunk x y)
      = ⟨(x : ℚ) / (s.resolution : ℚ), (y : ℚ) / (s.resolution : ℚ)⟩ :=
  world_eq_corner s x y hc hd hx hy

/-- Witness for claim C3's theorem: pixel `(3, 1)` of the
resolution-4, chunk-2 grid is sampled at `(3/4, 1/4)`. -/
theorem claim_C3_witness :
    (freshDDF 4 2).world (pixChunkId 4 2 3 1) (pixOffset 2 3 1)
      = ⟨((3 : ℕ) : ℚ) / ((4 : ℕ) : ℚ), ((1 : ℕ) : ℚ) / ((4 : ℕ) : ℚ)⟩ :=
  claim_C3_sample_point_is_cell_corner (freshDDF 4 2) 3 1
    (by decide) (by decide) (by decide) (by decide)

/-!
## Claim C7 — constructor failure modes

`Argmax2D::new` rejects non-divisible pairs with an `Err`, but the claim
"for all resolution and chunk_size … no other failure paths" fails at
`chunk_size = 0`: `resolution % 0` panics in Rust instead of returning
an error. -/

/-- Claim C7, counterexample: at `(resolution, chunk) = (1, 0)` the
constructor panics (modelled `none`) — it neither returns the claimed
error nor a representation, although `1 % 0 = 1 ≠ 0`. -/
theorem claim_C7_counterexample :
    argmax2dNew 1 0 = none ∧ 1 % 0 ≠ 0 := by
  constructor
  · simp [argmax2dNew]
  · decide

/-- Claim C7 (amended: for `chunk_size ≥ 1` the constructor returns an
error iff `resolution` is not divisible by `chunk_size` and the filled
grid otherwise; `chunk_size = 0` instead panics in the `%` operation):
the failure behaviour of `Argmax2D::new`. -/
theorem claim_C7_new_error_iff_nondivisible (resolution chunk : ℕ) (hc : 0 < chunk) :
    ((∃ e, argmax2dNew resolution chunk = some (Except.error e)) ↔ resolution % chunk ≠ 0) ∧
    (resolution % chunk = 0 →
      argmax2dNew resolution chunk = some (Except.ok (freshDDF resolution chunk))) := by
  unfold argmax2dNew
  rw [if_neg (Nat.pos_iff_ne_zero.mp hc)]
  constructor
  · constructor
    · rintro ⟨e, he⟩
      intro hmod
      rw [if_neg (by simp [hmod])] at he
      exact absurd (Option.some_injective _ he) (by simp)
    · intro hmod
      exact ⟨_, by rw [if_pos hmod]⟩
  · intro hmod
    rw [if_neg (by simp [hmod])]

/-- Witness for claim C7's theorem: `(4, 3)` is rejected with an error,
`(4, 2)` is accepted. -/
theorem claim_C7_witness :
    (∃ e, argmax2dNew 4 3 = some (Except.error e)) ∧
    argmax2dNew 4 2 = some (Except.ok (freshDDF 4 2)) :=
  ⟨(claim_C7_new_error_iff_nondivisible 4 3 (by decide)).1.mpr (by decide),
   (claim_C7_new_error_iff_nondivisible 4 2 (by decide)).2 (by decide)⟩

/-!
## Claim C10 — totality of the bucket SDF at the empty bucket
-/

/-- Claim C10: the bucket SDF of an empty primitive list is the
`max_value / 2` sentinel (the `unwrap_or` default of the fold), so
`ADF::sdf` yields a value — the sentinel — at any point that resolves to
a leaf with an emptied bucket, rather than failing. -/
theorem claim_C10_empty_bucket_yields_sentinel :
    (∀ p : Pt, bucketSdf [] p = sentinel64) ∧
    (∀ (t : QT) (p : Pt) (n : QT), t.ptToNode p = some n → n.data = [] →
      adfSdf t p = sentinel64) := by
  constructor
  · intro p; rfl
  · intro t p n hres hdat
    unfold adfSdf
    rw [hres]
    show bucketSdf n.data p = sentinel64
    rw [hdat]
    rfl

/-- Witness for claim C10's theorem: a one-leaf tree with an empty
bucket samples to the sentinel. -/
theorem claim_C10_witness : adfSdf (adfNew 5 []) ⟨1/2, 1/2⟩ = sentinel64 :=
  claim_C10_empty_bucket_yields_sentinel.2 (adfNew 5 []) ⟨1/2, 1/2⟩ (adfNew 5 []) rfl rfl

/-!
## Claim C9 — half-open quadrant resolution
-/

theorem quadrant_contains_sub (p : Pt) :
    ((quadrantRect unitRect 0).containsPt p → unitRect.containsPt p) ∧
    ((quadrantRect unitRect 1).containsPt p → unitRect.containsPt p) ∧
    ((quadrantRect unitRect 2).containsPt p → unitRect.containsPt p) ∧
    ((quadrantRect unitRect 3).containsPt p → unitRect.containsPt p) := by
  refine ⟨?_, ?_, ?_, ?_⟩ <;>
    · intro h
      simp only [quadrantRect, unitRect, QRect.containsPt] at h ⊢
      obtain ⟨h1, h2, h3, h4⟩ := h
      refine ⟨by linarith, by linarith, by linarith, by linarith⟩

theorem quadrantGet_unit_none (p : Pt) (hp : ¬ unitRect.containsPt p) :
    quadrantGet unitRect p = none := by
  unfold quadrantGet
  rw [if_neg fun h => hp ((quadrant_contains_sub p).1 h),
    if_neg fun h => hp ((quadrant_contains_sub p).2.1 h),
    if_neg fun h => hp ((quadrant_contains_sub p).2.2.1 h),
    if_neg fun h => hp ((quadrant_contains_sub p).2.2.2 h)]

/-- Claim C9: once the root has children, any query point outside the
half-open unit square `[0,1)²` (in particular any point with a
coordinate equal to 1) resolves to no leaf — `pt_to_node` returns `None`
and `ADF::sdf` evaluates the root's own bucket; conversely a childless
root is returned by `pt_to_node` for every query point whatsoever. -/
theorem claim_C9_halfopen_resolution :
    (∀ (t : QT) (p : Pt), t.rect = unitRect → t.children.isSome →
      ¬ unitRect.containsPt p →
      t.ptToNode p = none ∧ adfSdf t p = bucketSdf t.data p) ∧
    (∀ (t : QT) (p : Pt), t.children.isNone → t.ptToNode p = some t) := by
  constructor
  · rintro ⟨r, c, d, md, dat⟩ p hr hc hp
    simp only [QT.rect] at hr
    subst hr
    match c, hc with
    | some (c0, c1, c2, c3), _ =>
      have hnone : QT.ptToNode (.mk unitRect (some (c0, c1, c2, c3)) d md dat) p = none := by
        unfold QT.ptToNode
        rw [quadrantGet_unit_none p hp]
      exact ⟨hnone, by unfold adfSdf; rw [hnone]⟩
  · rintro ⟨r, c, d, md, dat⟩ p hc
    match c, hc with
    | none, _ => rfl

/-- Witness for claim C9's theorem: the subdivided unit root does not
resolve `(1, 0)` (an edge point) to a leaf and falls back to the root
bucket; the fresh root resolves everything, even `(7, -3)`. -/
theorem claim_C9_witness :
    ((QT.subdivide (adfNew 1 []) fun _ => []).ptToNode ⟨1, 0⟩ = none ∧
      adfSdf (QT.subdivide (adfNew 1 []) fun _ => []) ⟨1, 0⟩
        = bucketSdf (QT.subdivide (adfNew 1 []) fun _ => []).data ⟨1, 0⟩) ∧
    (adfNew 1 []).ptToNode ⟨7, -3⟩ = some (adfNew 1 []) :=
  ⟨claim_C9_halfopen_resolution.1 _ ⟨1, 0⟩ rfl rfl
      (by intro h; exact absurd h.2.1 (by norm_num [unitRect])),
   claim_C9_halfopen_resolution.2 _ ⟨7, -3⟩ rfl⟩

/-!
## Claim C5 — the DDF placement iterator's stopping rule
-/

/-- Claim C5: with the default `min_dist` (`0.5 * SQRT_2 / resolution`,
one half-cell diagonal), the `take_while` stream of
`Argmax2D::iter().build()` never produces an element whose distance is
below the threshold, and the first `find_max` result below the
threshold terminates the stream: no element at or after it is produced. -/
theorem claim_C5_iter_stops_below_min_dist :
    (∀ (a : ℕ → DP) (resolution : ℕ) (i : ℕ),
      iterYields a (minDistDefault resolution) i →
      minDistDefault resolution ≤ (a i).distance) ∧
    (∀ (a : ℕ → DP) (resolution : ℕ) (i k : ℕ),
      (a i).distance < minDistDefault resolution → i ≤ k →
      ¬ iterYields a (minDistDefault resolution) k) := by
  constructor
  · intro a resolution i h
    exact h i le_rfl
  · intro a resolution i k hlow hik h
    exact absurd (h i hik) (not_le.mpr hlow)

/-- Witness for claim C5's theorem: a constant-distance-1 stream yields
at index 2 on a resolution-1 grid, and a constant-zero stream is dead
from index 0. -/
theorem claim_C5_witness :
    minDistDefault 1 ≤ (({ distance := 1, point := ⟨0, 0⟩ } : DP)).distance ∧
    ¬ iterYields (fun _ => { distance := 0, point := ⟨0, 0⟩ }) (minDistDefault 1) 3 :=
  ⟨claim_C5_iter_stops_below_min_dist.1 (fun _ => { distance := 1, point := ⟨0, 0⟩ }) 1 2
      (fun j _ => by norm_num [minDistDefault, sqrt2F32]),
   claim_C5_iter_stops_below_min_dist.2 (fun _ => { distance := 0, point := ⟨0, 0⟩ }) 1 0 3
      (by norm_num [minDistDefault, sqrt2F32]) (by omega)⟩

/-!
## Claim C4 — batched ascent filtering and mutual-distance dedup
-/

theorem mem_dedup_foldl (dist : Pt → Pt → ℚ) :
    ∀ (l acc : List DP) (q : DP), q ∈ l.foldl (dedupStep dist) acc → q ∈ acc ∨ q ∈ l := by
  intro l
  induction l with
  | nil => intro acc q h; exact Or.inl h
  | cons x xs ih =>
    intro acc q h
    rcases ih (dedupStep dist acc x) q h with hm | hm
    · unfold dedupStep at hm
      by_cases hc : (acc.all fun p => decide (x.distance < dist p.point x.point / 2)) = true
      · rw [if_pos hc] at hm
        rcases List.mem_append.mp hm with h1 | h1
        · exact Or.inl h1
        · exact Or.inr (List.mem_cons.mpr (Or.inl (List.mem_singleton.mp h1)))
      · rw [if_neg hc] at hm
        exact Or.inl hm
    · exact Or.inr (List.mem_cons.mpr (Or.inr hm))

theorem mem_ascendedCandidates (f : Pt → ℚ) (opt : Pt → Pt) (delta : ℚ)
    (starts : List Pt) (q : DP) (h : q ∈ ascendedCandidates f opt delta starts) :
    delta < q.distance ∧ q.distance = f q.point := by
  unfold ascendedCandidates at h
  obtain ⟨p0, _, hq⟩ := List.mem_filterMap.mp h
  by_cases hc : delta < f (opt p0)
  · rw [if_pos hc] at hq
    cases hq
    exact ⟨hc, rfl⟩
  · rw [if_neg hc] at hq
    cases hq

theorem findSome?_exists {α β : Type} (f : α → Option β) :
    ∀ (l : List α) (b : β), l.findSome? f = some b → ∃ a, a ∈ l ∧ f a = some b := by
  intro l
  induction l with
  | nil => intro b h; simp [List.findSome?] at h
  | cons a as ih =>
    intro b h
    rw [List.findSome?] at h
    cases hfa : f a with
    | some c =>
      rw [hfa] at h
      exact ⟨a, List.mem_cons_self a as, by rw [hfa]; exact h⟩
    | none =>
      rw [hfa] at h
      obtain ⟨a1, ha1, hfa1⟩ := ih b h
      exact ⟨a1, List.mem_cons_of_mem a ha1, hfa1⟩

theorem findLocalMax_gt_delta (f : Pt → ℚ) (opt : Pt → Pt) (delta : ℚ)
    (p0s : List Pt) (q : DP) (h : findLocalMax f opt delta p0s = some q) :
    delta < q.distance ∧ q.distance = f q.point := by
  unfold findLocalMax at h
  obtain ⟨p0, _, hq⟩ := findSome?_exists _ p0s q h
  simp only at hq
  by_cases hc : delta < f (opt p0)
  · rw [if_pos hc] at hq
    cases hq
    exact ⟨hc, rfl⟩
  · rw [if_neg hc] at hq
    cases hq

/-- Claim C4: every `DistPoint` returned by `find_max_parallel` (and by
each batch of the gradient-descent iterator) has field value strictly
above the line-search `Δ`, and the returned list is exactly the
left-to-right dedup fold of the ascended candidates, keeping `p_new` iff
every previously kept `p_k` satisfies
`distance(p_new, p_k) / 2 > φ(p_new)`. -/
theorem claim_C4_batch_filter_and_dedup :
    (∀ (dist : Pt → Pt → ℚ) (f : Pt → ℚ) (opt : Pt → Pt) (delta : ℚ)
      (starts : List Pt) (q : DP), q ∈ findMaxParallel dist f opt delta starts →
      delta < q.distance ∧ q.distance = f q.point) ∧
    (∀ (dist : Pt → Pt → ℚ) (f : Pt → ℚ) (opt : Pt → Pt) (delta : ℚ) (starts : List Pt),
      findMaxParallel dist f opt delta starts
        = dedupFold dist (ascendedCandidates f opt delta starts)) ∧
    (∀ (dist : Pt → Pt → ℚ) (f : Pt → ℚ) (opt : Pt → Pt) (delta : ℚ)
      (seeds : List (List Pt)) (q : DP), q ∈ gdIterBatch dist f opt delta seeds →
      delta < q.distance ∧ q.distance = f q.point) ∧
    (∀ (dist : Pt → Pt → ℚ) (f : Pt → ℚ) (opt : Pt → Pt) (delta : ℚ)
      (seeds : List (List Pt)),
      gdIterBatch dist f opt delta seeds
        = dedupFold dist (seeds.filterMap (findLocalMax f opt delta))) := by
  refine ⟨?_, fun _ _ _ _ _ => rfl, ?_, fun _ _ _ _ _ => rfl⟩
  · intro dist f opt delta starts q h
    have hmem : q ∈ ascendedCandidates f opt delta starts := by
      rcases mem_dedup_foldl dist (ascendedCandidates f opt delta starts) [] q h with h0 | h0
      · cases h0
      · exact h0
    exact mem_ascendedCandidates f opt delta starts q hmem
  · intro dist f opt delta seeds q h
    have hmem : q ∈ seeds.filterMap (findLocalMax f opt delta) := by
      rcases mem_dedup_foldl dist (seeds.filterMap (findLocalMax f opt delta)) [] q h with h0 | h0
      · cases h0
      · exact h0
    obtain ⟨p0s, _, hq⟩ := List.mem_filterMap.mp hmem
    exact findLocalMax_gt_delta f opt delta p0s q hq

/-- Witness for claim C4's theorem: a single unit-value candidate
survives the filter and the dedup fold, with field value `1 > Δ = 0`. -/
theorem claim_C4_witness :
    (0 : ℚ) < (({ distance := 1, point := ⟨0, 0⟩ } : DP)).distance ∧
    (({ distance := 1, point := ⟨0, 0⟩ } : DP)).distance = (fun _ => (1 : ℚ)) (⟨0, 0⟩ : Pt) :=
  claim_C4_batch_filter_and_dedup.1 (fun _ _ => 100) (fun _ => 1) id 0 [⟨0, 0⟩]
    { distance := 1, point := ⟨0, 0⟩ }
    (by simp [findMaxParallel, List.filterMap])

/-!
## Claim C1 — the DDF stores pointwise minima of the inserted SDFs
-/

theorem spanFull (s : DDF) (hc : 0 < s.chunk) (hd : s.chunk ∣ s.resolution) :
    s.spanLo unitRect = (0, 0) ∧ s.spanHi unitRect = (s.side, s.side) := by
  have hcast : ((s.resolution : ℚ)) / (s.chunk : ℚ) = ((s.side : ℕ) : ℚ) := by
    rw [DDF.side, Nat.cast_div hd (by exact_mod_cast Nat.pos_iff_ne_zero.mp hc)]
  constructor
  · unfold DDF.spanLo unitRect
    norm_num
  · unfold DDF.spanHi unitRect
    norm_num [hcast]

theorem insertSdf_data_at (s : DDF) (f : Pt → ℚ) (x y : ℕ) (hc : 0 < s.chunk)
    (hd : s.chunk ∣ s.resolution) (hx : x < s.resolution) (hy : y < s.resolution) :
    (s.insertSdf f).data (s.pixIndex x y)
      = min (s.data (s.pixIndex x y))
          (f ⟨(x : ℚ) / (s.resolution : ℚ), (y : ℚ) / (s.resolution : ℚ)⟩) := by
  have harea : 0 < s.chunkArea := by
    unfold DDF.chunkArea; positivity
  have ho : pixOffset s.chunk x y < s.chunkArea := pixOffset_lt s.chunk x y hc
  have hdiv : s.pixIndex x y / s.chunkArea = pixChunkId s.resolution s.chunk x y := by
    unfold DDF.pixIndex
    rw [Nat.mul_add_div harea, Nat.div_eq_of_lt ho, Nat.add_zero]
  have hmod : s.pixIndex x y % s.chunkArea = pixOffset s.chunk x y := by
    unfold DDF.pixIndex
    rw [Nat.mul_add_mod, Nat.mod_eq_of_lt ho]
  have hspan : s.inSpan unitRect (pixChunkId s.resolution s.chunk x y) := by
    obtain ⟨hlo, hhi⟩ := spanFull s hc hd
    unfold DDF.inSpan
    rw [hlo, hhi, DDF.side, offsetToXY_pixChunkId s.resolution s.chunk x y hc hd hx hy]
    exact ⟨Nat.zero_le _, Nat.div_lt_div_of_lt_of_dvd hd hx,
      Nat.zero_le _, Nat.div_lt_div_of_lt_of_dvd hd hy⟩
  show (if s.inSpan unitRect (s.pixIndex x y / s.chunkArea) then
      min (s.data (s.pixIndex x y))
        (f (s.world (s.pixIndex x y / s.chunkArea) (s.pixIndex x y % s.chunkArea)))
    else s.data (s.pixIndex x y)) = _
  rw [hdiv, hmod, if_pos hspan, world_eq_corner s x y hc hd hx hy]

/-- Claim C1, counterexample: on the 1×1 grid, a single `insert_sdf` of
`f(p) = p.x` stores `0` (the value at the cell corner `(0, 0)`), not the
claimed `min(sentinel, f(center)) = ½`. -/
theorem claim_C1_counterexample :
    ¬ (((freshDDF 1 1).insertSdf fun p => p.x).data ((freshDDF 1 1).pixIndex 0 0)
        = min sentinel32 ((fun p : Pt => p.x) (specPixelCenterWorld 1 0 0))) := by
  have h : ((freshDDF 1 1).insertSdf fun p => p.x).data ((freshDDF 1 1).pixIndex 0 0)
      = min sentinel32 0 := by
    have hstep := insertSdf_data_at (freshDDF 1 1) (fun p => p.x) 0 0
      (by decide) (by decide) (by decide) (by decide)
    rw [hstep]
    norm_num [freshDDF]
  rw [h]
  norm_num [sentinel32, specPixelCenterWorld, min_def]

theorem insertSdf_preserves_fields (s : DDF) (f : Pt → ℚ) :
    (s.insertSdf f).resolution = s.resolution ∧ (s.insertSdf f).chunk = s.chunk :=
  ⟨rfl, rfl⟩

theorem foldl_insertSdf_data (x y : ℕ) :
    ∀ (fs : List (Pt → ℚ)) (s : DDF), 0 < s.chunk → s.chunk ∣ s.resolution →
      x < s.resolution → y < s.resolution →
      (fs.foldl DDF.insertSdf s).data (s.pixIndex x y)
        = fs.foldl
            (fun a f => min a (f ⟨(x : ℚ) / (s.resolution : ℚ), (y : ℚ) / (s.resolution : ℚ)⟩))
            (s.data (s.pixIndex x y)) := by
  intro fs
  induction fs with
  | nil => intro s _ _ _ _; rfl
  | cons f fs ih =>
    intro s hc hd hx hy
    have hstep : (s.insertSdf f).data ((s.insertSdf f).pixIndex x y)
        = min (s.data (s.pixIndex x y))
            (f ⟨(x : ℚ) / (s.resolution : ℚ), (y : ℚ) / (s.resolution : ℚ)⟩) :=
      insertSdf_data_at s f x y hc hd hx hy
    have hih := ih (s.insertSdf f) hc hd hx hy
    calc ((f :: fs).foldl DDF.insertSdf s).data (s.pixIndex x y)
        = (fs.foldl DDF.insertSdf (s.insertSdf f)).data ((s.insertSdf f).pixIndex x y) := rfl
      _ = fs.foldl
            (fun a g => min a (g ⟨(x : ℚ) / (s.resolution : ℚ), (y : ℚ) / (s.resolution : ℚ)⟩))
            ((s.insertSdf f).data ((s.insertSdf f).pixIndex x y)) := hih
      _ = fs.foldl
            (fun a g => min a (g ⟨(x : ℚ) / (s.resolution : ℚ), (y : ℚ) / (s.resolution : ℚ)⟩))
            (min (s.data (s.pixIndex x y))
              (f ⟨(x : ℚ) / (s.resolution : ℚ), (y : ℚ) / (s.resolution : ℚ)⟩)) := by rw [hstep]

/-- Claim C1 (amended: the sample point is the cell *corner*
`(x/resolution, y/resolution)`, not the center): starting from the
sentinel-initialized grid, after any sequence of `insert_sdf` calls
every stored cell value equals the left fold of `min` over the sentinel
and the inserted SDFs sampled at the cell's corner world point. -/
theorem claim_C1_ddf_pointwise_min (resolution chunk : ℕ) (fs : List (Pt → ℚ)) (x y : ℕ)
    (hc : 0 < chunk) (hd : chunk ∣ resolution) (hx : x < resolution) (hy : y < resolution) :
    (fs.foldl DDF.insertSdf (freshDDF resolution chunk)).data
        ((freshDDF resolution chunk).pixIndex x y)
      = fs.foldl (fun a f => min a (f ⟨(x : ℚ) / (resolution : ℚ), (y : ℚ) / (resolution : ℚ)⟩))
          sentinel32 :=
  foldl_insertSdf_data x y fs (freshDDF resolution chunk) hc hd hx hy

/-- Witness for claim C1's theorem: inserting `p.x` then the constant
`-1` into a 2×2 grid leaves `min(min(sentinel, ½), -1) = -1` at pixel
`(1, 0)`. -/
theorem claim_C1_witness :
    ([fun p : Pt => p.x, fun _ : Pt => (-1 : ℚ)].foldl DDF.insertSdf (freshDDF 2 1)).data
        ((freshDDF 2 1).pixIndex 1 0)
      = [fun p : Pt => p.x, fun _ : Pt => (-1 : ℚ)].foldl
          (fun a f => min a (f ⟨((1 : ℕ) : ℚ) / ((2 : ℕ) : ℚ), ((0 : ℕ) : ℚ) / ((2 : ℕ) : ℚ)⟩))
          sentinel32 :=
  claim_C1_ddf_pointwise_min 2 1 [fun p : Pt => p.x, fun _ : Pt => (-1 : ℚ)] 1 0
    (by decide) (by decide) (by decide) (by decide)

/-!
## Claim C6 — double inversion

`invert()` negates every sample and *recomputes* every cache slot from
the samples.  Stored values therefore return exactly after two calls,
and so does the cache — but only when the prior cache already held the
recomputed per-chunk argmax.  A fresh grid does not: its cache holds
`ArgmaxResult::default()` (point `(0,0)`), while the recomputation puts
the last pixel of each chunk into the tie-broken argmax. -/

/-- Claim C6, counterexample: on a fresh 2×2 grid (one chunk), two
`invert()` calls leave the cache slot pointing at the last cell
`(½, ½)`, not at its prior default contents (point `(0, 0)`). -/
theorem claim_C6_counterexample :
    (freshDDF 2 2).invert.invert.cache 0 ≠ (freshDDF 2 2).cache 0 := by
  have hlhs : (freshDDF 2 2).invert.invert.cache 0 = ⟨sentinel32, ⟨1/2, 1/2⟩⟩ := by
    norm_num [freshDDF, DDF.chunkCount, DDF.side, DDF.chunkArea, DDF.invert, DDF.world,
      DDF.chunkTopLeft, offsetToXY, offsetToXYNormalized, List.range_succ, List.range_zero,
      maxLastDP, dpDefault]
  intro heq
  rw [hlhs] at heq
  have hx := congrArg (fun d => d.point.x) heq
  norm_num [freshDDF, dpDefault] at hx

theorem invert_preserves_shape (s : DDF) :
    s.invert.resolution = s.resolution ∧ s.invert.chunk = s.chunk :=
  ⟨rfl, rfl⟩

/-- Claim C6 (amended: two `invert()` calls restore every stored sample
exactly; they also restore the per-chunk argmax cache provided the prior
cache already held the per-chunk argmax of the samples — as it does
after any insertion or inversion, though not after bare construction):
double inversion of the DDF. -/
theorem claim_C6_invert_involution (s : DDF) (hc : 0 < s.chunk)
    (hcache : ∀ id, id < s.chunkCount → s.cache id = s.chunkArgmax id) :
    (∀ i, s.invert.invert.data i = s.data i) ∧
    (∀ id, s.invert.invert.cache id = s.cache id) := by
  have harea : 0 < s.chunkArea := by unfold DDF.chunkArea; positivity
  have hdata : ∀ i, s.invert.invert.data i = s.data i := by
    intro i
    show (if i / s.chunkArea < s.chunkCount then -s.invert.data i else s.invert.data i)
      = s.data i
    by_cases hcnt : i / s.chunkArea < s.chunkCount
    · rw [if_pos hcnt]
      show -(if i / s.chunkArea < s.chunkCount then -s.data i else s.data i) = s.data i
      rw [if_pos hcnt, neg_neg]
    · rw [if_neg hcnt]
      show (if i / s.chunkArea < s.chunkCount then -s.data i else s.data i) = s.data i
      rw [if_neg hcnt]
  refine ⟨hdata, ?_⟩
  intro id
  by_cases hid : id < s.chunkCount
  · show (if id < s.chunkCount then
        maxLastDP ((List.range s.chunkArea).map fun o =>
          ⟨-s.invert.data (s.chunkArea * id + o), s.invert.world id o⟩) dpDefault
      else s.invert.cache id) = s.cache id
    rw [if_pos hid, hcache id hid]
    unfold DDF.chunkArgmax
    congr 1
    apply List.map_congr_left
    intro o ho
    have holt : o < s.chunkArea := List.mem_range.mp ho
    have hdivo : (s.chunkArea * id + o) / s.chunkArea = id := by
      rw [Nat.mul_add_div harea, Nat.div_eq_of_lt holt, Nat.add_zero]
    have hneg : -s.invert.data (s.chunkArea * id + o) = s.data (s.chunkArea * id + o) := by
      show -(if (s.chunkArea * id + o) / s.chunkArea < s.chunkCount then
          -s.data (s.chunkArea * id + o) else s.data (s.chunkArea * id + o))
        = s.data (s.chunkArea * id + o)
      rw [hdivo, if_pos hid, neg_neg]
    rw [hneg]
    rfl
  · show (if id < s.chunkCount then
        maxLastDP ((List.range s.chunkArea).map fun o =>
          ⟨-s.invert.data (s.chunkArea * id + o), s.invert.world id o⟩) dpDefault
      else s.invert.cache id) = s.cache id
    rw [if_neg hid]
    show (if id < s.chunkCount then
        maxLastDP ((List.range s.chunkArea).map fun o =>
          ⟨-s.data (s.chunkArea * id + o), s.world id o⟩) dpDefault
      else s.cache id) = s.cache id
    rw [if_neg hid]

/-- Witness for claim C6's theorem: the fresh 1×1 grid satisfies the
cache hypothesis (its single chunk's argmax is the default entry), and
double inversion restores both arrays. -/
theorem claim_C6_witness :
    (∀ i, (freshDDF 1 1).invert.invert.data i = (freshDDF 1 1).data i) ∧
    (∀ id, (freshDDF 1 1).invert.invert.cache id = (freshDDF 1 1).cache id) :=
  claim_C6_invert_involution (freshDDF 1 1) (by decide) (by
    intro id hid
    have h0 : id = 0 := by
      have : (freshDDF 1 1).chunkCount = 1 := by decide
      omega
    subst h0
    show dpDefault = (freshDDF 1 1).chunkArgmax 0
    unfold DDF.chunkArgmax
    have hr : List.range (freshDDF 1 1).chunkArea = [0] := by decide
    rw [hr]
    norm_num [freshDDF, DDF.world, DDF.chunkTopLeft, offsetToXY,
      offsetToXYNormalized, maxLastDP, dpDefault, DDF.side])

/-!
## Claim C8 — no children at or below `max_depth`
-/

theorem subdivide_wellFormed (t : QT) (finit : QRect → List (Pt → ℚ))
    (h : t.wellFormed) : (t.subdivide finit).wellFormed := by
  obtain ⟨r, c, d, md, dat⟩ := t
  show (if d < md ∧ c.isNone then _ else _ : QT).wellFormed
  by_cases hcond : d < md ∧ c.isNone
  · rw [if_pos hcond]
    exact ⟨hcond.1, trivial, trivial, trivial, trivial⟩
  · rw [if_neg hcond]
    exact h

theorem adfInsert_wellFormed (po : Oracle) (domain : QRect) (f : Pt → ℚ) :
    ∀ t : QT, t.wellFormed → (adfInsert po domain f t).1.wellFormed
  | .mk r none d md dat, h => by
    unfold adfInsert
    by_cases hint : ¬ QRect.intersects r domain
    · rw [if_pos hint]; exact h
    · rw [if_neg hint]
      by_cases h1 : po f (bucketSdf dat) r = true
      · rw [if_pos h1]; exact h
      · rw [if_neg h1]
        by_cases h2 : po (bucketSdf dat) f r = true
        · rw [if_pos h2]; trivial
        · rw [if_neg h2]
          by_cases h3 : d = md
          · rw [if_pos h3]; trivial
          · rw [if_neg h3]
            by_cases h4 : dat.length < bucketSize
            · rw [if_pos h4]; trivial
            · rw [if_neg h4]
              exact subdivide_wellFormed (.mk r none d md dat)
                (pruneBucket po (dat ++ [f])) trivial
  | .mk r (some (c0, c1, c2, c3)) d md dat, h => by
    unfold adfInsert
    by_cases hint : ¬ QRect.intersects r domain
    · rw [if_pos hint]; exact h
    · rw [if_neg hint]
      obtain ⟨hd, h0, h1, h2, h3⟩ := h
      exact ⟨hd, adfInsert_wellFormed po domain f c0 h0,
        adfInsert_wellFormed po domain f c1 h1,
        adfInsert_wellFormed po domain f c2 h2,
        adfInsert_wellFormed po domain f c3 h3⟩

/-- Claim C8: the quadtree never creates children at a node whose depth
equals `max_depth` — the fresh root satisfies the invariant, `subdivide`
at the floor leaves the node unchanged, `subdivide` and
`insert_sdf_domain` preserve the invariant (children present ⇒
depth < max_depth), and the insertion visit of a crossing max-depth leaf
appends the primitive to the bucket instead of subdividing. -/
theorem claim_C8_no_children_at_max_depth :
    (∀ (maxDepth : ℕ) (init : List (Pt → ℚ)), (adfNew maxDepth init).wellFormed) ∧
    (∀ (t : QT) (finit : QRect → List (Pt → ℚ)), t.depth = t.maxDepth →
      t.subdivide finit = t) ∧
    (∀ (t : QT) (finit : QRect → List (Pt → ℚ)), t.wellFormed →
      (t.subdivide finit).wellFormed) ∧
    (∀ (po : Oracle) (domain : QRect) (f : Pt → ℚ) (t : QT), t.wellFormed →
      (adfInsert po domain f t).1.wellFormed) ∧
    (∀ (po : Oracle) (domain : QRect) (f : Pt → ℚ) (r : QRect) (d : ℕ)
      (dat : List (Pt → ℚ)),
      QRect.intersects r domain → po f (bucketSdf dat) r = false →
      po (bucketSdf dat) f r = false →
      adfInsert po domain f (.mk r none d d dat) = (.mk r none d d (dat ++ [f]), true)) := by
  refine ⟨fun _ _ => trivial, ?_, subdivide_wellFormed, adfInsert_wellFormed, ?_⟩
  · intro t finit hdm
    obtain ⟨r, c, d, md, dat⟩ := t
    simp only [QT.depth, QT.maxDepth] at hdm
    show (if d < md ∧ c.isNone then _ else _ : QT) = _
    rw [if_neg fun hcond => absurd hcond.1 (by omega)]
  · intro po domain f r d dat hint h1 h2
    unfold adfInsert
    rw [if_neg (not_not_intro hint), if_neg (by simp [h1]), if_neg (by simp [h2]),
      if_pos rfl]

/-- Witness for claim C8's theorem: a crossing insert into a max-depth
leaf (depth = max_depth = 1) appends and keeps the node childless. -/
theorem claim_C8_witness :
    adfInsert (fun _ _ _ => false) unitRect (fun _ => (0 : ℚ)) (.mk unitRect none 1 1 [])
      = (.mk unitRect none 1 1 [fun _ => (0 : ℚ)], true) := by
  have h := claim_C8_no_children_at_max_depth.2.2.2.2 (fun _ _ _ => false) unitRect
    (fun _ => (0 : ℚ)) unitRect 1 [] (by norm_num [QRect.intersects, unitRect]) rfl rfl
  simpa using h

/-!
## Claim C2 — ADF monotonicity

The counterexample: the interior-point walk of `sdf_partialord` misses
the region where the inserted primitive exceeds the bucket field, the
replace branch fires, and `ADF::sdf` rises at a probe point.  The
amended theorem: monotonicity holds whenever every `true` oracle verdict
is pointwise sound on its node's closed rect and no visited leaf takes
the subdivide-and-prune branch.
-/

theorem optimizeNormalGo_stop (cfg : LSCfg) (h : Pt → Option ℚ) (fuel : ℕ) (step : ℚ)
    (p : Pt) (hstep : step < cfg.delta) :
    optimizeNormalGo cfg h (fuel + 1) step p = some false := by
  simp only [optimizeNormalGo]
  rw [if_pos hstep]

theorem optimizeNormalGo_found (cfg : LSCfg) (h : Pt → Option ℚ) (fuel : ℕ) (step : ℚ)
    (p : Pt) (fp : ℚ) (hstep : ¬ step < cfg.delta) (hfp : h p = some fp) (hpos : 0 < fp) :
    optimizeNormalGo cfg h (fuel + 1) step p = some true := by
  simp only [optimizeNormalGo]
  rw [if_neg hstep, hfp]
  show (if 0 < fp then some true else _) = _
  rw [if_pos hpos]

theorem optimizeNormalGo_step (cfg : LSCfg) (h : Pt → Option ℚ) (fuel : ℕ) (step : ℚ)
    (p : Pt) (fp hx hy : ℚ) (n : Pt) (step2 : ℚ) (p2 : Pt)
    (hstep : ¬ step < cfg.delta) (hfp : h p = some fp) (hpos : ¬ 0 < fp)
    (hhx : h ⟨p.x + cfg.delta, p.y⟩ = some hx) (hhy : h ⟨p.x, p.y + cfg.delta⟩ = some hy)
    (hn : qnormalize (hx - fp) (hy - fp) = some n)
    (hs2 : step2 = step * cfg.decay) (hp2 : p2 = ⟨p.x + n.x * step, p.y + n.y * step⟩) :
    optimizeNormalGo cfg h (fuel + 1) step p = optimizeNormalGo cfg h fuel step2 p2 := by
  simp only [optimizeNormalGo]
  rw [if_neg hstep, hfp]
  show (if 0 < fp then some true else _) = _
  rw [if_neg hpos, hhx, hhy]
  show (match qnormalize (hx - fp) (hy - fp) with
    | none => none
    | some n => optimizeNormalGo cfg h fuel (step * cfg.decay)
        ⟨p.x + n.x * step, p.y + n.y * step⟩) = _
  rw [hn]
  show optimizeNormalGo cfg h fuel (step * cfg.decay)
    ⟨p.x + n.x * step, p.y + n.y * step⟩ = _
  rw [hs2, hp2]

theorem cex_center : unitRect.centerPt = ⟨1/2, 1/2⟩ := by
  norm_num [QRect.centerPt, unitRect]

/-- The `g ≥ f` test of the counterexample run: the walk from the
center steps left (`x = 1/2 → -1/2 → 0 → -1/4`) as the objective slopes
away from the bump, bounces on the interior-point boundary constraint,
and stops when the step decays below `Δ` without ever finding
`cexF > cexG` — so `sdf_partialord` wrongly asserts `cexG ≥ cexF`
everywhere. -/
theorem cex_po2 : sdfPartialOrd1 lsCex 5 (bucketSdf [cexG]) cexF unitRect = some true := by
  have e0 : ipmObjective unitRect (bucketSdf [cexG]) cexF ⟨1/2, 1/2⟩ = some (-1) := by
    norm_num [ipmObjective, QRect.containsPt, unitRect, bucketSdf, cexG, cexF]
  have e0x : ipmObjective unitRect (bucketSdf [cexG]) cexF
      ⟨(⟨1/2, 1/2⟩ : Pt).x + lsCex.delta, (⟨1/2, 1/2⟩ : Pt).y⟩ = some (-(5/4)) := by
    norm_num [ipmObjective, QRect.containsPt, unitRect, bucketSdf, cexG, cexF, lsCex]
  have e0y : ipmObjective unitRect (bucketSdf [cexG]) cexF
      ⟨(⟨1/2, 1/2⟩ : Pt).x, (⟨1/2, 1/2⟩ : Pt).y + lsCex.delta⟩ = some (-1) := by
    norm_num [ipmObjective, QRect.containsPt, unitRect, bucketSdf, cexG, cexF, lsCex]
  have s1 : optimizeNormalGo lsCex (ipmObjective unitRect (bucketSdf [cexG]) cexF)
      5 1 ⟨1/2, 1/2⟩
      = optimizeNormalGo lsCex (ipmObjective unitRect (bucketSdf [cexG]) cexF)
        4 (1/2) ⟨-(1/2), 1/2⟩ :=
    optimizeNormalGo_step lsCex _ 4 1 ⟨1/2, 1/2⟩ (-1) (-(5/4)) (-1) ⟨-1, 0⟩ (1/2) ⟨-(1/2), 1/2⟩
      (by norm_num [lsCex]) e0 (by norm_num) e0x e0y
      (by norm_num [qnormalize, qlen, abs_of_nonneg, abs_of_nonpos])
      (by norm_num [lsCex]) (by norm_num)
  have e1 : ipmObjective unitRect (bucketSdf [cexG]) cexF ⟨-(1/2), 1/2⟩ = some (-(1/2)) := by
    norm_num [ipmObjective, QRect.containsPt, unitRect, boundaryConstraint, rectShapeSdf,
      qlen, QRect.centerPt, abs_of_nonneg, abs_of_nonpos]
  have e1x : ipmObjective unitRect (bucketSdf [cexG]) cexF
      ⟨(⟨-(1/2), 1/2⟩ : Pt).x + lsCex.delta, (⟨-(1/2), 1/2⟩ : Pt).y⟩ = some (-(1/4)) := by
    norm_num [ipmObjective, QRect.containsPt, unitRect, boundaryConstraint, rectShapeSdf,
      qlen, QRect.centerPt, abs_of_nonneg, abs_of_nonpos, lsCex]
  have e1y : ipmObjective unitRect (bucketSdf [cexG]) cexF
      ⟨(⟨-(1/2), 1/2⟩ : Pt).x, (⟨-(1/2), 1/2⟩ : Pt).y + lsCex.delta⟩ = some (-(1/2)) := by
    norm_num [ipmObjective, QRect.containsPt, unitRect, boundaryConstraint, rectShapeSdf,
      qlen, QRect.centerPt, abs_of_nonneg, abs_of_nonpos, lsCex]
  have s2 : optimizeNormalGo lsCex (ipmObjective unitRect (bucketSdf [cexG]) cexF)
      4 (1/2) ⟨-(1/2), 1/2⟩
      = optimizeNormalGo lsCex (ipmObjective unitRect (bucketSdf [cexG]) cexF)
        3 (1/4) ⟨0, 1/2⟩ :=
    optimizeNormalGo_step lsCex _ 3 (1/2) ⟨-(1/2), 1/2⟩ (-(1/2)) (-(1/4)) (-(1/2)) ⟨1, 0⟩
      (1/4) ⟨0, 1/2⟩
      (by norm_num [lsCex]) e1 (by norm_num) e1x e1y
      (by norm_num [qnormalize, qlen, abs_of_nonneg, abs_of_nonpos])
      (by norm_num [lsCex]) (by norm_num)
  have e2 : ipmObjective unitRect (bucketSdf [cexG]) cexF ⟨0, 1/2⟩ = some (-(1/2)) := by
    norm_num [ipmObjective, QRect.containsPt, unitRect, bucketSdf, cexG, cexF]
  have e2x : ipmObjective unitRect (bucketSdf [cexG]) cexF
      ⟨(⟨0, 1/2⟩ : Pt).x + lsCex.delta, (⟨0, 1/2⟩ : Pt).y⟩ = some (-(3/4)) := by
    norm_num [ipmObjective, QRect.containsPt, unitRect, bucketSdf, cexG, cexF, lsCex]
  have e2y : ipmObjective unitRect (bucketSdf [cexG]) cexF
      ⟨(⟨0, 1/2⟩ : Pt).x, (⟨0, 1/2⟩ : Pt).y + lsCex.delta⟩ = some (-(1/2)) := by
    norm_num [ipmObjective, QRect.containsPt, unitRect, bucketSdf, cexG, cexF, lsCex]
  have s3 : optimizeNormalGo lsCex (ipmObjective unitRect (bucketSdf [cexG]) cexF)
      3 (1/4) ⟨0, 1/2⟩
      = optimizeNormalGo lsCex (ipmObjective unitRect (bucketSdf [cexG]) cexF)
        2 (1/8) ⟨-(1/4), 1/2⟩ :=
    optimizeNormalGo_step lsCex _ 2 (1/4) ⟨0, 1/2⟩ (-(1/2)) (-(3/4)) (-(1/2)) ⟨-1, 0⟩
      (1/8) ⟨-(1/4), 1/2⟩
      (by norm_num [lsCex]) e2 (by norm_num) e2x e2y
      (by norm_num [qnormalize, qlen, abs_of_nonneg, abs_of_nonpos])
      (by norm_num [lsCex]) (by norm_num)
  have s4 : optimizeNormalGo lsCex (ipmObjective unitRect (bucketSdf [cexG]) cexF)
      2 (1/8) ⟨-(1/4), 1/2⟩ = some false :=
    optimizeNormalGo_stop lsCex _ 1 (1/8) ⟨-(1/4), 1/2⟩ (by norm_num [lsCex])
  unfold sdfPartialOrd1 optimizeNormal
  rw [cex_center]
  rw [show lsCex.initStep = 1 from rfl]
  rw [show (5 : ℕ) = 4 + 1 from rfl] at s1
  rw [s1, s2, s3, s4]
  rfl

/-- The `f ≥ g` test of the counterexample run fails immediately: the
objective `cexG - cexF` is `1 > 0` at the center, so the walk finds a
genuine point where `cexG > cexF` on its first sample. -/
theorem cex_po1 : sdfPartialOrd1 lsCex 5 cexF (bucketSdf [cexG]) unitRect = some false := by
  have e0 : ipmObjective unitRect cexF (bucketSdf [cexG]) ⟨1/2, 1/2⟩ = some 1 := by
    norm_num [ipmObjective, QRect.containsPt, unitRect, bucketSdf, cexG, cexF]
  unfold sdfPartialOrd1 optimizeNormal
  rw [cex_center]
  rw [show lsCex.initStep = 1 from rfl]
  rw [optimizeNormalGo_found lsCex _ 4 1 ⟨1/2, 1/2⟩ 1 (by norm_num [lsCex]) e0 (by norm_num)]
  rfl

/-- The counterexample insertion takes the replace branch: the bucket
`[cexG]` becomes `[cexF]` and the change flag is set. -/
theorem cex_insert : adfInsert poCex unitRect cexF cexTree
    = (.mk unitRect none 0 2 [cexF], true) := by
  have hpo1 : poCex cexF (bucketSdf [cexG]) unitRect = false := by
    unfold poCex
    rw [cex_po1]
    rfl
  have hpo2 : poCex (bucketSdf [cexG]) cexF unitRect = true := by
    unfold poCex
    rw [cex_po2]
    rfl
  show (if ¬ QRect.intersects unitRect unitRect then _ else _ : QT × Bool) = _
  rw [if_neg (not_not_intro (by norm_num [QRect.intersects, unitRect]))]
  show (if poCex cexF (bucketSdf [cexG]) unitRect then _ else _ : QT × Bool) = _
  rw [if_neg (by rw [hpo1]; exact Bool.false_ne_true)]
  show (if poCex (bucketSdf [cexG]) cexF unitRect then _ else _ : QT × Bool) = _
  rw [if_pos (by rw [hpo2])]

/-- Claim C2, counterexample: one `insert_sdf_domain` call on
`ADF::new(2, vec![cexG])` under the `lsCex` line-search configuration
*increases* `ADF::sdf` at the unit-square point `(31/32, 1/2)` from
`1/32` to `5/32`: the represented field is not non-increasing across
insertions. -/
theorem claim_C2_counterexample :
    adfSdf cexTree cexV < adfSdf (adfInsert poCex unitRect cexF cexTree).1 cexV := by
  rw [cex_insert]
  show bucketSdf [cexG] cexV < bucketSdf [cexF] cexV
  norm_num [bucketSdf, cexG, cexF, cexV]

theorem closedContains_of_containsPt (r : QRect) (p : Pt) (h : r.containsPt p) :
    r.closedContains p :=
  ⟨h.1, le_of_lt h.2.1, h.2.2.1, le_of_lt h.2.2.2⟩

theorem quadrantGet_some_contains (r : QRect) (p : Pt) (q : Fin 4)
    (h : quadrantGet r p = some q) : (quadrantRect r q).containsPt p := by
  unfold quadrantGet at h
  by_cases h0 : (quadrantRect r 0).containsPt p
  · rw [if_pos h0] at h
    injection h with h
    rw [← h]
    exact h0
  · rw [if_neg h0] at h
    by_cases h1 : (quadrantRect r 1).containsPt p
    · rw [if_pos h1] at h
      injection h with h
      rw [← h]
      exact h1
    · rw [if_neg h1] at h
      by_cases h2 : (quadrantRect r 2).containsPt p
      · rw [if_pos h2] at h
        injection h with h
        rw [← h]
        exact h2
      · rw [if_neg h2] at h
        by_cases h3 : (quadrantRect r 3).containsPt p
        · rw [if_pos h3] at h
          injection h with h
          rw [← h]
          exact h3
        · rw [if_neg h3] at h
          cases h

theorem bucketSdf_append_le (dat : List (Pt → ℚ)) (f : Pt → ℚ) (p : Pt)
    (hf : f p ≤ sentinel64) : bucketSdf (dat ++ [f]) p ≤ bucketSdf dat p := by
  cases dat with
  | nil => exact hf
  | cons g gs =>
    show List.foldl (fun a h => if a ≤ h p then a else h p) (g p) (gs ++ [f])
      ≤ List.foldl (fun a h => if a ≤ h p then a else h p) (g p) gs
    rw [List.foldl_append]
    generalize List.foldl (fun a h => if a ≤ h p then a else h p) (g p) gs = A
    show (if A ≤ f p then A else f p) ≤ A
    by_cases hA : A ≤ f p
    · rw [if_pos hA]
    · rw [if_neg hA]
      exact le_of_not_le hA

theorem ptToNode_of_leaf (r : QRect) (d md : ℕ) (dat : List (Pt → ℚ)) (p : Pt) :
    (QT.mk r none d md dat).ptToNode p = some (QT.mk r none d md dat) := rfl

theorem resolve_refl (t : QT) (p : Pt) :
    (t.ptToNode p = none ∧ t.ptToNode p = none) ∨
    (∃ n2 n1, t.ptToNode p = some n2 ∧ t.ptToNode p = some n1 ∧
      bucketSdf n2.data p ≤ bucketSdf n1.data p) := by
  cases h : t.ptToNode p with
  | none => exact Or.inl ⟨rfl, rfl⟩
  | some n => exact Or.inr ⟨n, n, rfl, rfl, le_refl _⟩

theorem adfInsert_resolve_mono (po : Oracle) (domain : QRect) (f : Pt → ℚ)
    (hs : OracleSound po) (hf : ∀ v, f v ≤ sentinel64) :
    ∀ (t : QT) (p : Pt), noSubdivide po domain f t → t.rectsCoherent →
      t.rect.closedContains p →
      ((adfInsert po domain f t).1.ptToNode p = none ∧ t.ptToNode p = none) ∨
      (∃ n2 n1, (adfInsert po domain f t).1.ptToNode p = some n2 ∧
        t.ptToNode p = some n1 ∧ bucketSdf n2.data p ≤ bucketSdf n1.data p)
  | .mk r none d md dat, p => by
    intro hns _ hcc
    simp only [adfInsert]
    by_cases hint : ¬ QRect.intersects r domain
    · rw [if_pos hint]
      exact resolve_refl _ p
    · rw [if_neg hint]
      by_cases h1 : po f (bucketSdf dat) r = true
      · rw [if_pos h1]
        exact resolve_refl _ p
      · rw [if_neg h1]
        by_cases h2 : po (bucketSdf dat) f r = true
        · rw [if_pos h2]
          refine Or.inr ⟨.mk r none d md [f], .mk r none d md dat, rfl, rfl, ?_⟩
          exact hs (bucketSdf dat) f r h2 p hcc
        · rw [if_neg h2]
          by_cases h3 : d = md
          · rw [if_pos h3]
            exact Or.inr ⟨.mk r none d md (dat ++ [f]), .mk r none d md dat, rfl, rfl,
              bucketSdf_append_le dat f p (hf p)⟩
          · rw [if_neg h3]
            by_cases h4 : dat.length < bucketSize
            · rw [if_pos h4]
              exact Or.inr ⟨.mk r none d md (dat ++ [f]), .mk r none d md dat, rfl, rfl,
                bucketSdf_append_le dat f p (hf p)⟩
            · exfalso
              have hb1 : po f (bucketSdf dat) r = false := by
                cases hpo : po f (bucketSdf dat) r
                · rfl
                · exact absurd hpo h1
              have hb2 : po (bucketSdf dat) f r = false := by
                cases hpo : po (bucketSdf dat) f r
                · rfl
                · exact absurd hpo h2
              rcases hns (not_not.mp hint) hb1 hb2 with h | h
              · exact h3 h
              · exact h4 h
  | .mk r (some (c0, c1, c2, c3)) d md dat, p => by
    intro hns hrc hcc
    obtain ⟨hns0, hns1, hns2, hns3⟩ := hns
    obtain ⟨hr0, hr1, hr2, hr3, hc0, hc1, hc2, hc3⟩ := hrc
    simp only [adfInsert]
    by_cases hint : ¬ QRect.intersects r domain
    · rw [if_pos hint]
      exact resolve_refl _ p
    · rw [if_neg hint]
      cases hq : quadrantGet r p with
      | none =>
        refine Or.inl ⟨?_, ?_⟩
        · simp only [QT.ptToNode]
          rw [hq]
        · simp only [QT.ptToNode]
          rw [hq]
      | some q =>
        have hcp : (quadrantRect r q).containsPt p := quadrantGet_some_contains r p q hq
        fin_cases q
        · have hcc0 : c0.rect.closedContains p := by
            rw [hr0]
            exact closedContains_of_containsPt _ _ hcp
          rcases adfInsert_resolve_mono po domain f hs hf c0 p hns0 hc0 hcc0 with
            ⟨ha, hb⟩ | ⟨n2, n1, ha, hb, hle⟩
          · exact Or.inl ⟨by simp only [QT.ptToNode]; rw [hq]; exact ha,
              by simp only [QT.ptToNode]; rw [hq]; exact hb⟩
          · exact Or.inr ⟨n2, n1, by simp only [QT.ptToNode]; rw [hq]; exact ha,
              by simp only [QT.ptToNode]; rw [hq]; exact hb, hle⟩
        · have hcc1 : c1.rect.closedContains p := by
            rw [hr1]
            exact closedContains_of_containsPt _ _ hcp
          rcases adfInsert_resolve_mono po domain f hs hf c1 p hns1 hc1 hcc1 with
            ⟨ha, hb⟩ | ⟨n2, n1, ha, hb, hle⟩
          · exact Or.inl ⟨by simp only [QT.ptToNode]; rw [hq]; exact ha,
              by simp only [QT.ptToNode]; rw [hq]; exact hb⟩
          · exact Or.inr ⟨n2, n1, by simp only [QT.ptToNode]; rw [hq]; exact ha,
              by simp only [QT.ptToNode]; rw [hq]; exact hb, hle⟩
        · have hcc2 : c2.rect.closedContains p := by
            rw [hr2]
            exact closedContains_of_containsPt _ _ hcp
          rcases adfInsert_resolve_mono po domain f hs hf c2 p hns2 hc2 hcc2 with
            ⟨ha, hb⟩ | ⟨n2, n1, ha, hb, hle⟩
          · exact Or.inl ⟨by simp only [QT.ptToNode]; rw [hq]; exact ha,
              by simp only [QT.ptToNode]; rw [hq]; exact hb⟩
          · exact Or.inr ⟨n2, n1, by simp only [QT.ptToNode]; rw [hq]; exact ha,
              by simp only [QT.ptToNode]; rw [hq]; exact hb, hle⟩
        · have hcc3 : c3.rect.closedContains p := by
            rw [hr3]
            exact closedContains_of_containsPt _ _ hcp
          rcases adfInsert_resolve_mono po domain f hs hf c3 p hns3 hc3 hcc3 with
            ⟨ha, hb⟩ | ⟨n2, n1, ha, hb, hle⟩
          · exact Or.inl ⟨by simp only [QT.ptToNode]; rw [hq]; exact ha,
              by simp only [QT.ptToNode]; rw [hq]; exact hb⟩
          · exact Or.inr ⟨n2, n1, by simp only [QT.ptToNode]; rw [hq]; exact ha,
              by simp only [QT.ptToNode]; rw [hq]; exact hb, hle⟩

/-- Claim C2 (amended: the represented field never increases across an
`insert_sdf_domain` call *provided* (a) every `true` verdict of the
partial-order oracle used in the call is pointwise correct on the closed
rect of its node, (b) the inserted primitive never exceeds the
`max_value / 2` sentinel, and (c) no visited leaf takes the
subdivide-and-prune branch; the line-search oracle's heuristic misses
violate (a) and make the unconditional claim false, as the
counterexample shows): conditional ADF monotonicity. -/
theorem claim_C2_adf_monotonicity (po : Oracle) (domain : QRect) (f : Pt → ℚ) (t : QT)
    (p : Pt) (hs : OracleSound po) (hf : ∀ v, f v ≤ sentinel64)
    (hns : noSubdivide po domain f t) (hrc : t.rectsCoherent)
    (hroot : t.rect = unitRect) (hp : unitRect.closedContains p) :
    adfSdf (adfInsert po domain f t).1 p ≤ adfSdf t p := by
  have hcc : t.rect.closedContains p := by rw [hroot]; exact hp
  rcases adfInsert_resolve_mono po domain f hs hf t p hns hrc hcc with
    ⟨h2, h1⟩ | ⟨n2, n1, h2, h1, hle⟩
  · obtain ⟨r, c, d, md, dat⟩ := t
    cases c with
    | none =>
      rw [ptToNode_of_leaf] at h1
      exact absurd h1 (by simp)
    | some cs =>
      obtain ⟨c0, c1, c2, c3⟩ := cs
      have hdata : (adfInsert po domain f (QT.mk r (some (c0, c1, c2, c3)) d md dat)).1.data
          = dat := by
        simp only [adfInsert]
        by_cases hint : ¬ QRect.intersects r domain
        · rw [if_pos hint]
          rfl
        · rw [if_neg hint]
          rfl
      unfold adfSdf
      rw [h1, h2, hdata]
      exact le_refl _
  · unfold adfSdf
    rw [h1, h2]
    exact hle

/-- Witness for claim C2's theorem: the always-`false` oracle is
vacuously sound, a fresh one-leaf ADF has a free bucket slot, and the
insertion of the zero primitive does not raise the field at the
center. -/
theorem claim_C2_witness :
    adfSdf (adfInsert (fun _ _ _ => false) unitRect (fun _ => (0 : ℚ)) (adfNew 2 [])).1
        ⟨1/2, 1/2⟩
      ≤ adfSdf (adfNew 2 []) ⟨1/2, 1/2⟩ :=
  claim_C2_adf_monotonicity (fun _ _ _ => false) unitRect (fun _ => (0 : ℚ)) (adfNew 2 [])
    ⟨1/2, 1/2⟩ (fun _ _ _ h => absurd h (by simp)) (fun _ => by norm_num [sentinel64])
    (fun _ _ _ => Or.inr (by norm_num [bucketSize])) trivial rfl
    (by norm_num [unitRect, QRect.closedContains])

end SpaceFilling
